import Mathlib

/-!
# Verification of the n19 buffered output-stream core (`src/Core/Stream.hpp`)

Shallow embedding of the `OStream` / `BufferedOStream<N>` / `NullOStream`
hierarchy.  Bytes are modelled as `Nat` values (the C++ `Byte` is an 8-bit
unsigned integer; none of the buffering logic depends on the 8-bit bound).
The underlying `sys::IODevice fd_` (the Sink, an external collaborator) is
modelled as a trace of the calls the stream makes into it: each
`fd_.write(span)` appends a `SinkEv.write` event carrying the bytes, and each
`fd_.flush_handle()` appends a `SinkEv.flushHandle` event.
-/

namespace N19

/-- A byte, the element type `OStream::Char_ = Byte`. -/
abbrev Byte := Nat

/-- One call made by a stream into its `sys::IODevice fd_` (the Sink):
either `fd_.write(bytes)` or `fd_.flush_handle()`. -/
inductive SinkEv where
  | write (bs : List Byte)
  | flushHandle
deriving DecidableEq, Repr

/-- The bytes the Sink observes in a trace: the concatenation of the payloads
of all `write` events, in order. -/
def sinkBytes : List SinkEv → List Byte
  | [] => []
  | SinkEv.write bs :: rest => bs ++ sinkBytes rest
  | SinkEv.flushHandle :: rest => sinkBytes rest

/-- State of a `BufferedOStream<N>` (Stream.hpp lines 171–254):
`buff` models the fixed array `Buffer_ buff_[N]` (kept at length `N`),
`curr` models the cursor `Index_ curr_`, and `sink` is the trace of calls
made so far into the underlying `fd_`. -/
structure BufferedOStream (N : Nat) where
  buff : List Byte
  curr : Nat
  sink : List SinkEv
deriving DecidableEq, Repr

namespace BufferedOStream

variable {N : Nat}

/-- A freshly constructed `BufferedOStream<N>`: `Buffer_ buff_{}` is
zero-initialised, `curr_{begin_}` starts at 0, and no Sink calls have
been made. -/
def init (N : Nat) : BufferedOStream N :=
  { buff := List.replicate N 0, curr := 0, sink := [] }

/-- `to_buffer` (Stream.hpp lines 208–216): `memcpy(&buff_[curr_], buff.data(),
buff.size_bytes()); curr_ += buff.size_bytes();`.  The memcpy overwrites the
`bs.length` bytes of the array starting at position `curr`. -/
def to_buffer (s : BufferedOStream N) (bs : List Byte) : BufferedOStream N :=
  { s with
    buff := s.buff.take s.curr ++ bs ++ s.buff.drop (s.curr + bs.length)
    curr := s.curr + bs.length }

/-- `flush` (Stream.hpp lines 218–227): if `curr_ > begin_` write the occupied
region `[0, curr_)` to the Sink as one call and reset `curr_`; in every case
call `fd_.flush_handle()` afterwards. -/
def flush (s : BufferedOStream N) : BufferedOStream N :=
  let s' :=
    if 0 < s.curr then
      { s with sink := s.sink ++ [SinkEv.write (s.buff.take s.curr)], curr := 0 }
    else s
  { s' with sink := s'.sink ++ [SinkEv.flushHandle] }

/-- `write` (Stream.hpp lines 229–247): empty spans are rejected; spans larger
than the capacity flush then bypass the buffer; spans larger than the
remaining space `len_ - curr_` flush then enter the buffer; otherwise the
span enters the buffer at `curr_`. -/
def write (s : BufferedOStream N) (bs : List Byte) : BufferedOStream N :=
  if bs.length = 0 then s
  else if bs.length > N then
    let s' := flush s
    { s' with sink := s'.sink ++ [SinkEv.write bs] }
  else if N - s.curr < bs.length then
    to_buffer (flush s) bs
  else
    to_buffer s bs

/-- `~BufferedOStream() override = default` (line 249) followed by
`~OStream() = default` (line 164): both destructor bodies are empty, so
destruction makes no call into `fd_`; the final Sink trace is whatever it
already was, and the `curr` buffered bytes are simply discarded. -/
def destroy (s : BufferedOStream N) : List SinkEv := s.sink

end BufferedOStream

/-!
## The base `OStream` and the formatting operators

The base class (Stream.hpp lines 44–168) has only the Sink handle as state;
its virtual `write` forwards to `fd_.write` and `flush` to
`fd_.flush_handle()`.  We model it by the trace of calls into `fd_`.

The numeric/pointer operators call the conversion facility `std::to_chars`
(an external collaborator): per the spec it produces the minimal decimal
textual representation of an integer (base 10), or lowercase base-16 digits
without a `0x` prefix for a pointer's address, and reports an error when the
result does not fit the supplied range — here 39 characters, since the
operators pass `buff, buff + sizeof(buff) - 1` of a 40-byte buffer.
-/

/-- ASCII code of the digit character used by the conversion facility:
`0`–`9` are 48–57, and values 10–15 map to lowercase `a`–`f` (97–102). -/
def digitChar (n : Nat) : Byte :=
  if n < 10 then 48 + n else 87 + n

/-- Most-significant-first digit expansion in base `b`, structurally recursive
on a fuel argument (`fuel ≥ n` suffices for any `n`). -/
def digitsFuel (b : Nat) : Nat → Nat → List Byte → List Byte
  | 0, _, acc => acc
  | fuel + 1, n, acc =>
    if n < b then digitChar n :: acc
    else digitsFuel b fuel (n / b) (digitChar (n % b) :: acc)

/-- The minimal base-`b` representation of `n`, most significant digit first
(`0` is rendered as the single digit `0`). -/
def natToChars (b n : Nat) : List Byte :=
  digitsFuel b (n + 1) n []

/-- `std::to_chars(buff, buff + 39, value)` for an integer value: minimal
decimal representation, `-`-prefixed (ASCII 45) when negative; errors
(`none`) when the text does not fit in the 39 available characters. -/
def to_chars_int (v : Int) : Option (List Byte) :=
  let s := if v < 0 then 45 :: natToChars 10 v.natAbs else natToChars 10 v.natAbs
  if s.length ≤ 39 then some s else none

/-- `std::to_chars(buff, buff + 39, conv, 16)` for a pointer reinterpreted as
`uintptr_t`: minimal lowercase base-16 representation with no prefix; errors
(`none`) when it does not fit in 39 characters. -/
def to_chars_hex (p : Nat) : Option (List Byte) :=
  let s := natToChars 16 p
  if s.length ≤ 39 then some s else none

/-- The base `OStream`: its only state is the Sink handle, modelled by the
trace of `fd_.write` / `fd_.flush_handle` calls made through it. -/
structure OStream where
  sink : List SinkEv
deriving DecidableEq, Repr

namespace OStream

/-- Virtual `write` of the base class (lines 154–157): forwards the span to
`fd_.write` and returns the stream. -/
def write (s : OStream) (bs : List Byte) : OStream :=
  { sink := s.sink ++ [SinkEv.write bs] }

/-- Virtual `flush` of the base class (lines 159–162): `fd_.flush_handle()`. -/
def flush (s : OStream) : OStream :=
  { sink := s.sink ++ [SinkEv.flushHandle] }

/-- `operator<<(const std::string_view&)` (lines 100–103): writes the bytes of
the view when it is non-empty, otherwise does nothing. -/
def putStringView (s : OStream) (str : List Byte) : OStream :=
  if str.isEmpty then s else s.write str

/-- `operator<<` for an `IntOrFloat` value (lines 79–87), at an integer
instantiation: convert with `std::to_chars` into the 40-byte buffer; on
success forward the resulting view, on error write nothing. -/
def putInt (s : OStream) (v : Int) : OStream :=
  match to_chars_int v with
  | some cs => s.putStringView cs
  | none => s

/-- `operator<<` for a non-character `Pointer` (lines 89–98): the address is
converted in base 16 into the 40-byte buffer; on success forward the view,
on error write nothing.  Only the address value enters the conversion — the
pointee is never read. -/
def putPtr (s : OStream) (p : Nat) : OStream :=
  match to_chars_hex p with
  | some cs => s.putStringView cs
  | none => s

/-- `operator<<` for a `Character` value (lines 71–77): fills a 2-element
array `{value, 0}` and streams it; the array decays to a pointer, so the
`string_view` overload receives the characters strictly before the first
null terminator. -/
def putChar (s : OStream) (c : Byte) : OStream :=
  s.putStringView (([c, 0] : List Byte).takeWhile (fun x => x ≠ 0))

end OStream

/-!
## `NullOStream` (Stream.hpp lines 256–263)

`write` and `flush` unconditionally return the stream without touching any
device; any observer therefore sees an unchanging trace.  The formatting
operators are the inherited templates above, dispatching virtually into
these no-op overrides.
-/

/-- `NullOStream`: the trace any external observer could record; no member
function ever appends to it. -/
structure NullOStream where
  sink : List SinkEv
deriving DecidableEq, Repr

namespace NullOStream

/-- `write` override (line 258): `{ return *this; }`. -/
def write (s : NullOStream) (_bs : List Byte) : NullOStream := s

/-- `flush` override (line 259): `{ return *this; }`. -/
def flush (s : NullOStream) : NullOStream := s

/-- The inherited `operator<<(string_view)` body, with virtual `write`
dispatching to the `NullOStream` override. -/
def putStringView (s : NullOStream) (str : List Byte) : NullOStream :=
  if str.isEmpty then s else s.write str

/-- The inherited `operator<<(IntOrFloat)` body over the null stream. -/
def putInt (s : NullOStream) (v : Int) : NullOStream :=
  match to_chars_int v with
  | some cs => s.putStringView cs
  | none => s

/-- The inherited `operator<<(Pointer)` body over the null stream. -/
def putPtr (s : NullOStream) (p : Nat) : NullOStream :=
  match to_chars_hex p with
  | some cs => s.putStringView cs
  | none => s

/-- The inherited `operator<<(Character)` body over the null stream. -/
def putChar (s : NullOStream) (c : Byte) : NullOStream :=
  s.putStringView (([c, 0] : List Byte).takeWhile (fun x => x ≠ 0))

/-- The inherited `operator<<(const Flush_&)` (lines 60–63): calls `flush`. -/
def putFlushTok (s : NullOStream) : NullOStream := s.flush

/-- The inherited `operator<<(const Endl_&)` (lines 65–69): streams `'\n'`
(ASCII 10) then calls `flush`. -/
def putEndl (s : NullOStream) : NullOStream := (s.putChar 10).flush

end NullOStream

/-- One operation of the `NullOStream` public surface: raw writes, flushes,
and every formatting operator. -/
inductive NullOp where
  | write (bs : List Byte)
  | flush
  | putStringView (str : List Byte)
  | putInt (v : Int)
  | putPtr (p : Nat)
  | putChar (c : Byte)
  | flushTok
  | endl
deriving DecidableEq, Repr

/-- Apply one operation to a `NullOStream`. -/
def NullOStream.step (s : NullOStream) : NullOp → NullOStream
  | NullOp.write bs => s.write bs
  | NullOp.flush => s.flush
  | NullOp.putStringView str => s.putStringView str
  | NullOp.putInt v => s.putInt v
  | NullOp.putPtr p => s.putPtr p
  | NullOp.putChar c => s.putChar c
  | NullOp.flushTok => s.putFlushTok
  | NullOp.endl => s.putEndl

/-- Run a sequence of operations on a `NullOStream`. -/
def NullOStream.run (s : NullOStream) (ops : List NullOp) : NullOStream :=
  ops.foldl NullOStream.step s

/-!
## Instrumented semantics for the buffer invariant

To state "the buffer's first `curr` bytes are the concatenation of the spans
accepted into the buffer since the last flush", we run `write`/`flush`
alongside a ghost list `pend` of exactly those spans.  The state component of
each step is literally `BufferedOStream.write` / `BufferedOStream.flush`; the
ghost component mirrors the source's branch structure: a flush (explicit, or
the one performed inside `write`) clears `pend`, and a span that is copied
into the buffer by `to_buffer` is appended to it. -/

/-- One public operation on a `BufferedOStream`. -/
inductive Op where
  | write (bs : List Byte)
  | flush
deriving DecidableEq, Repr

/-- The spans held in the buffer after `write s bs`, given that `pend` were
held before: follows the branch structure of `write` (Stream.hpp 229–247). -/
def writeAccepted (N : Nat) (s : BufferedOStream N) (bs : List Byte)
    (pend : List (List Byte)) : List (List Byte) :=
  if bs.length = 0 then pend
  else if bs.length > N then []
  else if N - s.curr < bs.length then [bs]
  else pend ++ [bs]

/-- One step of the instrumented semantics. -/
def stepGhost (N : Nat) :
    BufferedOStream N × List (List Byte) → Op → BufferedOStream N × List (List Byte)
  | (s, pend), Op.write bs => (s.write bs, writeAccepted N s bs pend)
  | (s, _), Op.flush => (s.flush, [])

/-- Run a sequence of operations on a freshly constructed stream, tracking the
spans accepted into the buffer since the last flush. -/
def runGhost (N : Nat) (ops : List Op) : BufferedOStream N × List (List Byte) :=
  ops.foldl (stepGhost N) (BufferedOStream.init N, [])

/-- The buffer invariant: the array keeps its fixed length `N`, the cursor
stays within bounds, and the occupied region is exactly the concatenation of
the spans accepted since the last flush. -/
def GhostInv (N : Nat) (sp : BufferedOStream N × List (List Byte)) : Prop :=
  sp.1.buff.length = N ∧ sp.1.curr ≤ N ∧ sp.1.buff.take sp.1.curr = sp.2.flatten

/-!
## Helper lemmas

Branch-by-branch descriptions of `write` and `flush`, shared by the theorems
below. -/

theorem sinkBytes_append (xs ys : List SinkEv) :
    sinkBytes (xs ++ ys) = sinkBytes xs ++ sinkBytes ys := by
  induction xs with
  | nil => rfl
  | cons x xs ih => cases x <;> simp [sinkBytes, ih]

theorem flush_pos {N : Nat} (s : BufferedOStream N) (h : 0 < s.curr) :
    s.flush = ⟨s.buff, 0,
      s.sink ++ [SinkEv.write (s.buff.take s.curr), SinkEv.flushHandle]⟩ := by
  simp [BufferedOStream.flush, h]

theorem flush_zero {N : Nat} (s : BufferedOStream N) (h : s.curr = 0) :
    s.flush = ⟨s.buff, 0, s.sink ++ [SinkEv.flushHandle]⟩ := by
  simp [BufferedOStream.flush, h]

theorem flush_curr {N : Nat} (s : BufferedOStream N) : s.flush.curr = 0 := by
  by_cases h : 0 < s.curr <;> simp [BufferedOStream.flush, h] <;> omega

theorem flush_buff {N : Nat} (s : BufferedOStream N) : s.flush.buff = s.buff := by
  by_cases h : 0 < s.curr <;> simp [BufferedOStream.flush, h]

theorem write_empty {N : Nat} (s : BufferedOStream N) : s.write [] = s := by
  simp [BufferedOStream.write]

theorem write_bypass {N : Nat} (s : BufferedOStream N) (bs : List Byte)
    (h : N < bs.length) :
    s.write bs = ⟨s.buff, 0,
      s.sink ++ (if 0 < s.curr then [SinkEv.write (s.buff.take s.curr)] else [])
        ++ [SinkEv.flushHandle, SinkEv.write bs]⟩ := by
  have h0 : ¬ bs.length = 0 := by omega
  by_cases hc : 0 < s.curr <;>
    simp [BufferedOStream.write, BufferedOStream.flush, h, h0, hc] <;> omega

theorem write_evict {N : Nat} (s : BufferedOStream N) (bs : List Byte)
    (h1 : bs.length ≤ N) (h2 : N - s.curr < bs.length) :
    s.write bs = ⟨bs ++ s.buff.drop bs.length, bs.length,
      s.sink ++ [SinkEv.write (s.buff.take s.curr), SinkEv.flushHandle]⟩ := by
  have h0 : ¬ bs.length = 0 := by omega
  have hN : ¬ bs.length > N := by omega
  have hc : 0 < s.curr := by omega
  simp [BufferedOStream.write, BufferedOStream.flush, BufferedOStream.to_buffer,
    h0, hN, h2, hc]

theorem write_fits {N : Nat} (s : BufferedOStream N) (bs : List Byte)
    (h1 : bs ≠ []) (h2 : bs.length ≤ N - s.curr) :
    s.write bs = ⟨s.buff.take s.curr ++ bs ++ s.buff.drop (s.curr + bs.length),
      s.curr + bs.length, s.sink⟩ := by
  have h0 : ¬ bs.length = 0 := by simpa using h1
  have hN : ¬ bs.length > N := by omega
  have hs : ¬ N - s.curr < bs.length := by omega
  simp [BufferedOStream.write, BufferedOStream.to_buffer, h0, hN, hs]

/-!
## Claim theorems -/

/-- C1: `BufferedOStream<N>::write` follows exactly the spec's case split: an
empty span is a no-op; a span larger than `N` flushes the buffered bytes and
then goes straight to the Sink, leaving the buffer array untouched; a span
larger than the remaining space `N - curr` flushes (emptying the buffer) and
is then copied to the front of the buffer; otherwise it is copied at `curr`
and `curr` advances by its size. -/
theorem write_case_split (N : Nat) (s : BufferedOStream N) (bs : List Byte) :
    (bs = [] → s.write bs = s) ∧
    (N < bs.length →
      s.write bs = ⟨s.buff, 0,
        s.sink ++ (if 0 < s.curr then [SinkEv.write (s.buff.take s.curr)] else [])
          ++ [SinkEv.flushHandle, SinkEv.write bs]⟩) ∧
    (bs ≠ [] → bs.length ≤ N → N - s.curr < bs.length →
      s.write bs = ⟨bs ++ s.buff.drop bs.length, bs.length,
        s.sink ++ [SinkEv.write (s.buff.take s.curr), SinkEv.flushHandle]⟩) ∧
    (bs ≠ [] → bs.length ≤ N - s.curr →
      s.write bs = ⟨s.buff.take s.curr ++ bs ++ s.buff.drop (s.curr + bs.length),
        s.curr + bs.length, s.sink⟩) := by
  refine ⟨?_, ?_, ?_, ?_⟩
  · rintro rfl; exact write_empty s
  · intro h; exact write_bypass s bs h
  · intro _ h1 h2; exact write_evict s bs h1 h2
  · intro h1 h2; exact write_fits s bs h1 h2

/-- Witness for C1 at concrete inputs: on a fresh `BufferedOStream<2>`, the
1-byte span `[5]` takes the in-buffer branch. -/
theorem write_case_split_witness :
    ([5] : List Byte) ≠ [] ∧ ([5] : List Byte).length ≤ 2 - (BufferedOStream.init 2).curr ∧
    (BufferedOStream.init 2).write [5] = ⟨[5, 0], 1, []⟩ := by
  refine ⟨by decide, by decide, ?_⟩
  have h := (write_case_split 2 (BufferedOStream.init 2) [5]).2.2.2 (by decide) (by decide)
  simpa [BufferedOStream.init] using h

/-- C4: `flush` writes `[0, curr)` to the Sink as a single call and resets
`curr` exactly when `curr > 0`, always requests a Sink synchronize, and a
second consecutive `flush` adds no written bytes and leaves `curr` at 0. -/
theorem flush_contract (N : Nat) (s : BufferedOStream N) :
    (0 < s.curr → s.flush = ⟨s.buff, 0,
        s.sink ++ [SinkEv.write (s.buff.take s.curr), SinkEv.flushHandle]⟩) ∧
    (s.curr = 0 → s.flush = ⟨s.buff, 0, s.sink ++ [SinkEv.flushHandle]⟩) ∧
    s.flush.flush.curr = 0 ∧
    s.flush.flush.sink = s.flush.sink ++ [SinkEv.flushHandle] ∧
    sinkBytes s.flush.flush.sink = sinkBytes s.flush.sink := by
  have hc : s.flush.curr = 0 := flush_curr s
  have h2 : s.flush.flush = ⟨s.flush.buff, 0, s.flush.sink ++ [SinkEv.flushHandle]⟩ :=
    flush_zero s.flush hc
  refine ⟨flush_pos s, flush_zero s, ?_, ?_, ?_⟩
  · rw [h2]
  · rw [h2]
  · rw [h2]; simp [sinkBytes_append, sinkBytes]

/-- Witness for C4 at a concrete state with one buffered byte. -/
theorem flush_contract_witness :
    0 < (⟨[7, 0, 0], 1, []⟩ : BufferedOStream 3).curr ∧
    (⟨[7, 0, 0], 1, []⟩ : BufferedOStream 3).flush
      = ⟨[7, 0, 0], 0, [SinkEv.write [7], SinkEv.flushHandle]⟩ := by
  refine ⟨by decide, ?_⟩
  have h := (flush_contract 3 ⟨[7, 0, 0], 1, []⟩).1 (by decide)
  simpa using h

/-- C5: with capacity 8, writing `"AB"` then `"CDEFG"` then `"HIJ"` (ASCII
bytes) produces exactly one Sink write carrying `"ABCDEFG"` (the third call
forces it since the remaining space 1 < 3), after which the buffer's occupied
region is `"HIJ"` and `curr = 3`. -/
theorem scenario_evict :
    (((BufferedOStream.init 8).write [65, 66]).write [67, 68, 69, 70, 71]).write
        [72, 73, 74]
      = ⟨[72, 73, 74, 68, 69, 70, 71, 0], 3,
          [SinkEv.write [65, 66, 67, 68, 69, 70, 71], SinkEv.flushHandle]⟩ ∧
    ((((BufferedOStream.init 8).write [65, 66]).write [67, 68, 69, 70, 71]).write
        [72, 73, 74]).buff.take 3 = [72, 73, 74] := by
  decide

/-- C6: streaming the integer `-42` writes exactly the ASCII bytes `-42`
(45, 52, 50), and streaming a pointer whose address is `0xAB` (= 171) writes
exactly the ASCII bytes `ab` (97, 98): lowercase base 16, no `0x` prefix.
The pointer's address alone enters the conversion. -/
theorem scenario_format :
    (OStream.putInt ⟨[]⟩ (-42)).sink = [SinkEv.write [45, 52, 50]] ∧
    (OStream.putPtr ⟨[]⟩ 171).sink = [SinkEv.write [97, 98]] := by
  decide

/-- C7: whenever the conversion facility reports an error, the numeric and
pointer insertion operators write nothing and return the stream unchanged. -/
theorem conversion_failure_silent (s : OStream) (v : Int) (p : Nat) :
    (to_chars_int v = none → s.putInt v = s) ∧
    (to_chars_hex p = none → s.putPtr p = s) := by
  constructor
  · intro h; simp [OStream.putInt, h]
  · intro h; simp [OStream.putPtr, h]

/-- Witness for C7: a 40-digit value does not fit the 39-character range, the
conversion errors, and the operators leave the stream untouched. -/
theorem conversion_failure_silent_witness :
    to_chars_int (10 ^ 39) = none ∧ OStream.putInt ⟨[]⟩ (10 ^ 39) = ⟨[]⟩ ∧
    to_chars_hex (16 ^ 39) = none ∧ OStream.putPtr ⟨[]⟩ (16 ^ 39) = ⟨[]⟩ := by
  refine ⟨by decide, (conversion_failure_silent ⟨[]⟩ (10 ^ 39) (16 ^ 39)).1 (by decide),
    by decide, (conversion_failure_silent ⟨[]⟩ (10 ^ 39) (16 ^ 39)).2 (by decide)⟩

/-- C8 counterexample: the character operator streams the 2-element array
`{value, 0}` through the null-terminated `string_view` conversion, so for the
character value 0 the view is empty and nothing is written — not "exactly
that one character". -/
theorem putChar_null_cex :
    (OStream.putChar ⟨[]⟩ 0).sink = [] ∧
    (OStream.putChar ⟨[]⟩ 0).sink ≠ [SinkEv.write [0]] := by
  decide

/-- C8 amended: for every character value other than the null character, the
operator wraps it with a null terminator and emits exactly that one
character; the null character itself produces an empty view and emits
nothing. -/
theorem putChar_emits_one (s : OStream) (c : Byte) (h : c ≠ 0) :
    s.putChar c = s.write [c] := by
  simp [OStream.putChar, OStream.putStringView, List.takeWhile, h]

/-- Witness for the amended C8 at the character `A` (65). -/
theorem putChar_emits_one_witness :
    (65 : Byte) ≠ 0 ∧ OStream.putChar ⟨[]⟩ 65 = OStream.write ⟨[]⟩ [65] :=
  ⟨by decide, putChar_emits_one ⟨[]⟩ 65 (by decide)⟩

/-- C9: the destructors `~BufferedOStream` and `~OStream` are defaulted, so
destroying a stream with `curr > 0` buffered bytes makes no Sink call: the
Sink trace ends exactly as it was and the buffered bytes are discarded. -/
theorem destroy_discards (N : Nat) (s : BufferedOStream N) (h : 0 < s.curr) :
    s.destroy = s.sink ∧ sinkBytes s.destroy = sinkBytes s.sink :=
  ⟨rfl, rfl⟩

/-- Witness for C9 at a stream holding one unflushed byte. -/
theorem destroy_discards_witness :
    0 < (⟨[9, 0], 1, [SinkEv.write [3]]⟩ : BufferedOStream 2).curr ∧
    (⟨[9, 0], 1, [SinkEv.write [3]]⟩ : BufferedOStream 2).destroy
      = [SinkEv.write [3]] :=
  ⟨by decide, (destroy_discards 2 ⟨[9, 0], 1, [SinkEv.write [3]]⟩ (by decide)).1⟩

theorem NullOStream.step_eq (s : NullOStream) (op : NullOp) : s.step op = s := by
  cases op <;>
    simp [NullOStream.step, NullOStream.write, NullOStream.flush,
      NullOStream.putStringView, NullOStream.putInt, NullOStream.putPtr,
      NullOStream.putChar, NullOStream.putFlushTok, NullOStream.putEndl]
  case putInt v => cases to_chars_int v <;> simp [ite_self]
  case putPtr p => cases to_chars_hex p <;> simp [ite_self]

/-- C10: every sequence of writes, flushes and formatting operations on a
`NullOStream` leaves the observable trace untouched (zero bytes reach any
observer) and each operation returns the very same stream; no operation can
fail. -/
theorem null_stream_inert (s : NullOStream) (ops : List NullOp) :
    s.run ops = s ∧ (NullOStream.run ⟨[]⟩ ops).sink = [] := by
  have hrun : ∀ (t : NullOStream), t.run ops = t := by
    intro t
    induction ops generalizing t with
    | nil => rfl
    | cons op rest ih =>
      show (t.step op).run rest = t
      rw [NullOStream.step_eq, ih]
  exact ⟨hrun s, by rw [hrun ⟨[]⟩]⟩

theorem inv_flush (N : Nat) (s : BufferedOStream N) (hlen : s.buff.length = N) :
    s.flush.buff.length = N ∧ s.flush.curr ≤ N ∧
      s.flush.buff.take s.flush.curr = List.flatten ([] : List (List Byte)) := by
  rw [flush_buff, flush_curr]
  exact ⟨hlen, Nat.zero_le N, by simp⟩

theorem inv_write (N : Nat) (s : BufferedOStream N) (pend : List (List Byte))
    (bs : List Byte) (hlen : s.buff.length = N) (hcurr : s.curr ≤ N)
    (hocc : s.buff.take s.curr = pend.flatten) :
    (s.write bs).buff.length = N ∧ (s.write bs).curr ≤ N ∧
      (s.write bs).buff.take (s.write bs).curr
        = (writeAccepted N s bs pend).flatten := by
  by_cases h0 : bs.length = 0
  · have hnil : bs = [] := List.length_eq_zero.mp h0
    subst hnil
    rw [write_empty]
    simp only [writeAccepted, List.length_nil, if_pos rfl]
    exact ⟨hlen, hcurr, hocc⟩
  · by_cases hN : N < bs.length
    · rw [write_bypass s bs hN]
      simp only [writeAccepted, h0, if_false, gt_iff_lt, hN, if_true]
      exact ⟨hlen, Nat.zero_le N, by simp⟩
    · by_cases hs : N - s.curr < bs.length
      · rw [write_evict s bs (by omega) hs]
        simp only [writeAccepted, h0, if_false, gt_iff_lt, hN, hs, if_true]
        refine ⟨?_, by omega, ?_⟩
        · simp only [List.length_append, List.length_drop, hlen]
          omega
        · show (bs ++ s.buff.drop bs.length).take bs.length = [bs].flatten
          rw [List.take_left' rfl]
          simp
      · rw [write_fits s bs (fun hc => h0 (by simp [hc])) (by omega)]
        simp only [writeAccepted, h0, if_false, gt_iff_lt, hN, hs]
        have htk : (s.buff.take s.curr).length = s.curr := by
          rw [List.length_take]; omega
        refine ⟨?_, by omega, ?_⟩
        · simp only [List.length_append, List.length_drop, htk, hlen]
          omega
        · show (s.buff.take s.curr ++ bs ++ s.buff.drop (s.curr + bs.length)).take
              (s.curr + bs.length) = (pend ++ [bs]).flatten
          have hl : (s.buff.take s.curr ++ bs).length = s.curr + bs.length := by
            simp [htk]
          rw [List.take_left' hl, hocc]
          simp

theorem ghostInv_step (N : Nat) (sp : BufferedOStream N × List (List Byte))
    (op : Op) (h : GhostInv N sp) : GhostInv N (stepGhost N sp op) := by
  obtain ⟨s, pend⟩ := sp
  have hlen : s.buff.length = N := h.1
  have hcurr : s.curr ≤ N := h.2.1
  have hocc : s.buff.take s.curr = pend.flatten := h.2.2
  cases op with
  | flush => exact inv_flush N s hlen
  | write bs => exact inv_write N s pend bs hlen hcurr hocc

theorem ghostInv_run (N : Nat) (ops : List Op) : GhostInv N (runGhost N ops) := by
  have hinit : GhostInv N (BufferedOStream.init N, []) := by
    refine ⟨by simp [BufferedOStream.init], by simp [BufferedOStream.init], ?_⟩
    simp [BufferedOStream.init]
  rw [runGhost]
  generalize hsp : (BufferedOStream.init N, ([] : List (List Byte))) = sp at hinit
  clear hsp
  induction ops generalizing sp with
  | nil => exact hinit
  | cons op rest ih => exact ih _ (ghostInv_step N sp op hinit)

/-- C2: after every prefix of any sequence of `write`/`flush` calls on a
fresh `BufferedOStream<N>`, the cursor satisfies `0 ≤ curr ≤ N` and the
buffer's first `curr` bytes are exactly the order-preserving concatenation of
the spans accepted into the buffer since the last flush (or construction). -/
theorem buffer_invariant (N : Nat) (ops : List Op) :
    (runGhost N ops).1.curr ≤ N ∧
    (runGhost N ops).1.buff.take (runGhost N ops).1.curr
      = (runGhost N ops).2.flatten := by
  have h := ghostInv_run N ops
  exact ⟨h.2.1, h.2.2⟩

/-- C3: on a fresh `BufferedOStream<N>`, writing a payload `A` (size ≤ N),
then an oversized payload `B` (size > N), then `C` (size ≤ N), then flushing,
makes the Sink observe the write of `A` (when non-empty), then the bypass
write of `B`, then the write of `C` (when non-empty), in that order and never
interleaved; the buffered `A`, written before the bypass, reaches the Sink
before `B` does.  Consequently the Sink's bytes are `A ++ B ++ C`. -/
theorem order_across_bypass (N : Nat) (A B C : List Byte)
    (hA : A.length ≤ N) (hB : N < B.length) (hC : C.length ≤ N) :
    ((((BufferedOStream.init N).write A).write B).write C).flush.sink
      = (if A = [] then [] else [SinkEv.write A])
          ++ [SinkEv.flushHandle, SinkEv.write B]
          ++ (if C = [] then [] else [SinkEv.write C]) ++ [SinkEv.flushHandle]
    ∧ sinkBytes ((((BufferedOStream.init N).write A).write B).write C).flush.sink
      = A ++ B ++ C := by
  have hs1 : ∃ buf1, (BufferedOStream.init N).write A = ⟨buf1, A.length, []⟩
      ∧ buf1.take A.length = A := by
    rcases eq_or_ne A [] with rfl | hA0
    · refine ⟨List.replicate N 0, ?_, by simp⟩
      rw [write_empty]; rfl
    · refine ⟨A ++ (List.replicate N 0).drop A.length, ?_, List.take_left' rfl⟩
      rw [write_fits (BufferedOStream.init N) A hA0
        (by simpa [BufferedOStream.init] using hA)]
      simp [BufferedOStream.init]
  obtain ⟨buf1, hs1, htake1⟩ := hs1
  have hs2 : ((BufferedOStream.init N).write A).write B
      = ⟨buf1, 0, (if A = [] then [] else [SinkEv.write A])
          ++ [SinkEv.flushHandle, SinkEv.write B]⟩ := by
    rw [hs1, write_bypass _ B hB]
    rcases eq_or_ne A [] with rfl | hA0
    · simp
    · have hpos : 0 < A.length := List.length_pos.mpr hA0
      simp [hpos, hA0, htake1]
  have main : ((((BufferedOStream.init N).write A).write B).write C).flush.sink
      = (if A = [] then [] else [SinkEv.write A])
          ++ [SinkEv.flushHandle, SinkEv.write B]
          ++ (if C = [] then [] else [SinkEv.write C]) ++ [SinkEv.flushHandle] := by
    rcases eq_or_ne C [] with rfl | hC0
    · rw [hs2, write_empty, flush_zero _ rfl]
      simp
    · rw [hs2, write_fits _ C hC0 (by simpa using hC),
        flush_pos _ (by simpa using List.length_pos.mpr hC0)]
      simp [hC0, List.take_left']
  refine ⟨main, ?_⟩
  rw [main]
  have hA' : sinkBytes (if A = [] then [] else [SinkEv.write A]) = A := by
    rcases eq_or_ne A [] with rfl | h
    · simp [sinkBytes]
    · simp [sinkBytes, h]
  have hC' : sinkBytes (if C = [] then [] else [SinkEv.write C]) = C := by
    rcases eq_or_ne C [] with rfl | h
    · simp [sinkBytes]
    · simp [sinkBytes, h]
  simp [sinkBytes_append, sinkBytes, hA', hC']

/-- Witness for C3: capacity 2, `A = [1]`, bypass payload `B = [2, 3, 4]`,
`C = [5]`. -/
theorem order_across_bypass_witness :
    ([1] : List Byte).length ≤ 2 ∧ 2 < ([2, 3, 4] : List Byte).length ∧
    ([5] : List Byte).length ≤ 2 ∧
    ((((BufferedOStream.init 2).write [1]).write [2, 3, 4]).write [5]).flush.sink
      = [SinkEv.write [1], SinkEv.flushHandle, SinkEv.write [2, 3, 4],
          SinkEv.write [5], SinkEv.flushHandle] := by
  refine ⟨by decide, by decide, by decide, ?_⟩
  have h := (order_across_bypass 2 [1] [2, 3, 4] [5]
    (by decide) (by decide) (by decide)).1
  simpa using h

end N19
